import Mathlib

/-!
# Verification of the plan-decide-act core of `rust-cli-agent`

A shallow embedding of the core data model and operations of the repository
(`src/state.rs`, `src/tools.rs`, `src/orchestrator.rs`, `src/agents/planner.rs`,
`src/agents/coder.rs`, `src/cost_tracker.rs`, `src/error.rs`), together with
theorems settling the spec claims about them.

Modelling conventions:
* A Rust `String` is modelled as a `List Char` (`Str`); Rust's byte-indexed
  operations (`content.len()`, `&content[..n]`) are modelled through the UTF-8
  byte width of each character, and a byte slice that would panic (index not on
  a character boundary, as with Rust's `&s[..n]`) is modelled as `none`.
* Fallible operations return `Except AgentError`; external effects (filesystem,
  subprocess, network) are supplied by an explicit `World` of oracles, and the
  dispatcher additionally reports the list of effects it attempted.
* `f64` costs are modelled as rationals: the claims under study concern whether
  and when a cost is added at all, not floating-point rounding.
-/

/-- Rust `String` contents, modelled as the list of its characters. -/
abbrev Str := List Char

/-- Convenience: a Lean string literal as a `Str`. -/
def str (s : String) : Str := s.toList

/-- UTF-8 byte width of one character (as used by Rust `String::len`). -/
def charUtf8Size (c : Char) : Nat :=
  if c.val < 0x80 then 1
  else if c.val < 0x800 then 2
  else if c.val < 0x10000 then 3
  else 4

/-- Rust `str::len`: the UTF-8 byte length. -/
def byteLen (s : Str) : Nat := (s.map charUtf8Size).sum

/-- Rust byte slicing `&s[..n]` restricted to a prefix: returns the characters
making up the first `n` bytes, or `none` when `n` is not on a character
boundary or past the end — exactly the situations in which Rust panics. -/
def byteTake : Nat → Str → Option Str
  | 0, _ => some []
  | _ + 1, [] => none
  | n + 1, c :: rest =>
      if charUtf8Size c ≤ n + 1 then
        (byteTake (n + 1 - charUtf8Size c) rest).map (c :: ·)
      else none

/-- `if content.len() > cap { format!("{}...", &content[..cap]) } else { content.clone() }`
as written in `src/state.rs` line 25 (`cap = 500`) and `src/orchestrator.rs`
line 92 (`cap = 300`). `none` models the byte-slice panic. -/
def summarizeBytes (cap : Nat) (content : Str) : Option Str :=
  if byteLen content > cap then (byteTake cap content).map (· ++ str "...")
  else some content

/-- Rust `char` test used by `str::trim` (Unicode `White_Space`). -/
def rustIsWs (c : Char) : Bool :=
  (0x09 ≤ c.toNat && c.toNat ≤ 0x0D) || c.toNat == 0x20 || c.toNat == 0x85 ||
  c.toNat == 0xA0 || c.toNat == 0x1680 ||
  (0x2000 ≤ c.toNat && c.toNat ≤ 0x200A) ||
  c.toNat == 0x2028 || c.toNat == 0x2029 || c.toNat == 0x202F ||
  c.toNat == 0x205F || c.toNat == 0x3000

/-- Rust `str::trim`. -/
def rustTrim (s : Str) : Str :=
  ((s.dropWhile rustIsWs).reverse.dropWhile rustIsWs).reverse

/-- Split on `'\n'`, keeping empty segments (helper for `rustLines`). -/
def splitNl : Str → List Str
  | [] => [[]]
  | c :: rest =>
      match splitNl rest with
      | [] => [[]]
      | g :: gs => if c = '\n' then [] :: g :: gs else (c :: g) :: gs

/-- Rust `str::lines`: newline-separated segments, with no trailing empty
segment for a trailing newline.  (A `"\r\n"` ending leaves the `'\r'` on the
segment; every caller in the source trims each line immediately after, which
removes it, so the two models agree on all observable results.) -/
def rustLines (s : Str) : List Str :=
  let groups := splitNl s
  if groups.getLast? = some [] then groups.dropLast else groups

/-- Index of the first occurrence of `pat` in `s` (Rust `str::find` on a
string pattern; character index, which for the two-byte ASCII pattern `". "`
identifies the same occurrence as Rust's byte index). -/
def findSub (pat : Str) : Str → Option Nat
  | [] => if pat = [] then some 0 else none
  | c :: rest =>
      if pat.isPrefixOf (c :: rest) then some 0
      else (findSub pat rest).map (· + 1)

/-- Rust `str::contains` for a string pattern. -/
def hasSub (pat s : Str) : Bool := (findSub pat s).isSome

/-- The per-line transform of `PlannerAgent::parse_plan`
(`src/agents/planner.rs` lines 46-52): if `". "` occurs, drop everything up to
and including its first occurrence, else keep the line. -/
def stripNumbering (line : Str) : Str :=
  match findSub (str ". ") line with
  | some pos => line.drop (pos + 2)
  | none => line

/-- `PlannerAgent::parse_plan` (`src/agents/planner.rs` lines 41-54):
lines, trimmed, non-empty ones kept, each stripped by `stripNumbering`. -/
def parsePlan (response : Str) : List Str :=
  (((rustLines response).map rustTrim).filter (fun l => !l.isEmpty)).map
    stripNumbering

/-- `AppState` (`src/state.rs`). -/
structure AppState where
  goal : Str
  plan : List Str
  history : List (Str × Str)
  current_step : Nat

/-- `AppState::new`. -/
def AppState.new (goal : Str) : AppState :=
  { goal := goal, plan := [], history := [], current_step := 0 }

/-- `AppState::add_history`: push one `(label, content)` entry. -/
def addHistory (st : AppState) (entryType content : Str) : AppState :=
  { st with history := st.history ++ [(entryType, content)] }

/-- One rendered history block
`format!("[{}]\n{}\n---\n", entry_type, summarized)` of
`AppState::get_context`; `none` models the truncation panic. -/
def renderEntry (e : Str × Str) : Option Str :=
  (summarizeBytes 500 e.2).map
    (fun sm => str "[" ++ e.1 ++ str "]\n" ++ sm ++ str "\n---\n")

/-- The loop of `AppState::get_context` over the history entries, in order. -/
def renderHistory : List (Str × Str) → Option (List Str)
  | [] => some []
  | e :: rest =>
      match renderEntry e, renderHistory rest with
      | some p, some ps => some (p :: ps)
      | _, _ => none

/-- `AppState::get_context` (`src/state.rs` lines 18-30); `none` models the
byte-slice panic inside the truncation of one of the entries. -/
def getContext (st : AppState) : Option Str :=
  let header := str "The overall goal is: " ++ st.goal ++ str "\n" ++
    str "\n--- History & Context ---\n"
  if st.history.isEmpty then
    some (header ++ str "No actions have been taken yet.\n")
  else
    (renderHistory st.history).map (fun parts => header ++ parts.flatten)

/-- `AgentError` (`src/error.rs`).  Variants carrying foreign payloads
(`std::io::Error`, `walkdir::Error`, `reqwest::Error`, `serde_json::Error`)
carry their display text. -/
inductive AgentError
  | ConfigError (msg : Str)
  | LLMError (msg : Str)
  | ApiKeyMissing (provider : Str)
  | ToolError (msg : Str)
  | IoError (msg : Str)
  | WalkDirError (msg : Str)
  | RequestError (msg : Str)
  | JsonError (msg : Str)
  | ResponseParseError (msg : Str)
  deriving DecidableEq

/-- The `thiserror` display of `AgentError` (`e.to_string()`), as appended to
history by the orchestrator. -/
def AgentError.display : AgentError → Str
  | .ConfigError m => str "Configuration error: " ++ m
  | .LLMError m => str "LLM provider error: " ++ m
  | .ApiKeyMissing p =>
      str "API key for " ++ p ++ str " is not set in the environment variables"
  | .ToolError m => str "Tool execution failed: " ++ m
  | .IoError m => str "I/O error: " ++ m
  | .WalkDirError m => str "WalkDir error: " ++ m
  | .RequestError m => str "Network request failed: " ++ m
  | .JsonError m => str "JSON serialization/deserialization failed: " ++ m
  | .ResponseParseError m => str "Failed to parse LLM response: " ++ m

/-- A JSON value (the result of lexing a response string). -/
inductive Json
  | null
  | bool (b : Bool)
  | num (n : Int)
  | strVal (s : Str)
  | arr (xs : List Json)
  | obj (fields : List (Str × Json))

/-- `Tool` (`src/tools.rs` lines 8-17): the closed action set. -/
inductive Tool
  | ReadFile (path : Str)
  | WriteFile (path content : Str)
  | RunCommand (command : Str)
  | Search (query : Str)
  | ListFiles (path : Str)
  | CodeGeneration (task : Str)
  deriving DecidableEq

/-- `Decision` (`src/tools.rs` lines 19-26). -/
structure Decision where
  thought : Str
  tool : Tool
  file_path : Option Str
  deriving DecidableEq

/-- First value bound to key `k` in a JSON object's field list. -/
def lookupFirst (k : Str) : List (Str × Json) → Option Json
  | [] => none
  | kv :: rest => if kv.1 = k then some kv.2 else lookupFirst k rest

/-- Fetch key `k` as serde's map visitor does: absent is `none`, a repeated
key is a `duplicate field` error. -/
def getUnique (k : Str) : List (Str × Json) → Except Str (Option Json)
  | [] => .ok none
  | kv :: rest =>
      if kv.1 = k then
        match lookupFirst k rest with
        | some _ => .error (str "duplicate field")
        | none => .ok (some kv.2)
      else getUnique k rest

/-- A required `String` field of a variant's parameter struct. -/
def reqStrField (k : Str) (pfields : List (Str × Json)) : Except Str Str :=
  match getUnique k pfields with
  | .error e => .error e
  | .ok none => .error (str "missing field")
  | .ok (some (Json.strVal s)) => .ok s
  | .ok (some _) => .error (str "invalid type")

/-- Whether `tag` is one of the six closed Action tags (the derived variant
identifier set of `Tool`). -/
def isActionTag (tag : Str) : Bool :=
  tag = str "ReadFile" || tag = str "WriteFile" || tag = str "RunCommand" ||
  tag = str "Search" || tag = str "ListFiles" || tag = str "CodeGeneration"

/-- The parameter struct of a known tag, deserialized from `pf`. -/
def toolFromFields (tag : Str) (pf : List (Str × Json)) : Except Str Tool :=
  if tag = str "ReadFile" then
    (reqStrField (str "path") pf).map Tool.ReadFile
  else if tag = str "WriteFile" then
    match reqStrField (str "path") pf, reqStrField (str "content") pf with
    | .ok p, .ok c => .ok (Tool.WriteFile p c)
    | .error e, _ => .error e
    | _, .error e => .error e
  else if tag = str "RunCommand" then
    (reqStrField (str "command") pf).map Tool.RunCommand
  else if tag = str "Search" then
    (reqStrField (str "query") pf).map Tool.Search
  else if tag = str "ListFiles" then
    (reqStrField (str "path") pf).map Tool.ListFiles
  else if tag = str "CodeGeneration" then
    (reqStrField (str "task") pf).map Tool.CodeGeneration
  else .error (str "unknown variant")

/-- Deserialize the `parameters` value into the variant named by `tag`,
following `#[serde(tag = "tool_name", content = "parameters")]` on `Tool`:
an unknown tag is rejected, each variant requires its fields as strings,
unknown keys inside `parameters` are ignored. -/
def toolFromTag (tag : Str) (params : Json) : Except Str Tool :=
  if isActionTag tag then
    match params with
    | Json.obj pf => toolFromFields tag pf
    | _ => .error (str "invalid type")
  else .error (str "unknown variant")

/-- Deserialization of a lexed response into `Decision`, following the serde
derives of `src/tools.rs` (struct `Decision` with `#[serde(flatten)]` `Tool`
and `#[serde(default)] file_path`): the value must be an object; `thought`
is a required string; `tool_name` must name one of the six variants and
`parameters` must hold its fields; `file_path` absent or `null` is `none`;
unknown top-level keys are ignored by the flatten buffer. -/
def reqField (k : Str) (fields : List (Str × Json)) : Except Str Json :=
  match getUnique k fields with
  | .error e => .error e
  | .ok none => .error (str "missing field")
  | .ok (some v) => .ok v

/-- An `Option<String>` field with `#[serde(default)]`: absent or `null` is
`None`, a string is `Some`, anything else a type error. -/
def optStrField (k : Str) (fields : List (Str × Json)) :
    Except Str (Option Str) :=
  match getUnique k fields with
  | .error e => .error e
  | .ok none => .ok none
  | .ok (some Json.null) => .ok none
  | .ok (some (Json.strVal s)) => .ok (some s)
  | .ok (some _) => .error (str "invalid type")

def decisionFromObj (fields : List (Str × Json)) : Except Str Decision :=
  match reqStrField (str "thought") fields with
  | .error e => .error e
  | .ok thought =>
      match reqStrField (str "tool_name") fields with
      | .error e => .error e
      | .ok tag =>
          match reqField (str "parameters") fields with
          | .error e => .error e
          | .ok params =>
              match toolFromTag tag params with
              | .error e => .error e
              | .ok tool =>
                  match optStrField (str "file_path") fields with
                  | .error e => .error e
                  | .ok fp => .ok ⟨thought, tool, fp⟩

def decisionFromJson : Json → Except Str Decision
  | Json.obj fields => decisionFromObj fields
  | _ => .error (str "expected object")

/-- The required parameter keys of each of the six tags. -/
def requiredKeys (tag : Str) : List Str :=
  if tag = str "ReadFile" then [str "path"]
  else if tag = str "WriteFile" then [str "path", str "content"]
  else if tag = str "RunCommand" then [str "command"]
  else if tag = str "Search" then [str "query"]
  else if tag = str "ListFiles" then [str "path"]
  else if tag = str "CodeGeneration" then [str "task"]
  else []

/-- Modelled from the spec: "a JSON object whose `tool_name` is one of the six
closed Action tags with the variant's required fields present in
`parameters`" — the shape the spec says is necessary for decision parsing to
succeed. -/
def specValidDecision (j : Json) : Bool :=
  match j with
  | Json.obj fields =>
      match lookupFirst (str "tool_name") fields with
      | some (Json.strVal tag) =>
          isActionTag tag &&
          (match lookupFirst (str "parameters") fields with
           | some (Json.obj pf) =>
               (requiredKeys tag).all (fun k => (lookupFirst k pf).isSome)
           | _ => false)
      | _ => false
  | _ => false

/-- `ToolResult` (`src/tools.rs` lines 28-31). -/
inductive ToolResult
  | Success (output : Str)
  deriving DecidableEq

/-- The captured outcome of `tokio::process::Command::output()` when the
subprocess could be spawned: exit-status success flag plus the (lossily
UTF-8 decoded) stdout and stderr. -/
structure ProcResult where
  success : Bool
  stdout : Str
  stderr : Str

/-- An external effect attempted by the dispatcher. -/
inductive Effect
  | fsRead (path : Str)
  | fsWrite (path content : Str)
  | procRun (command : Str)
  | netSearch (query : Str)
  | walkList (root : Str)
  deriving DecidableEq

/-- Outcome of the whole `Search` interaction (config load, key lookup, HTTP
round trip), supplied as one oracle since the spec treats the search provider
as an external collaborator. -/
inductive SearchOutcome
  | configFail (e : AgentError)
  | noApiKey
  | transportFail (msg : Str)
  | httpNonSuccess (bodyText : Str)
  | ok (results : List (Str × Str × Str))

/-- The external world the dispatcher acts on: oracles for each effectful
primitive used by `run_tool` (`src/tools.rs`).  `walkdir root` is the ordered
entry sequence `WalkDir::new(root)` yields, each entry either a path's display
string or an error (`e.ok()` filtering drops the latter). -/
structure World where
  readFile : Str → Except Str Str
  writeFile : Str → Str → Except Str Unit
  runCommand : Str → Except Str ProcResult
  walkdir : Str → List (Except Str Str)
  search : Str → SearchOutcome

/-- Format the top-3 search results as in `src/tools.rs` lines 75-78. -/
def formatSearchResults (results : List (Str × Str × Str)) : Str :=
  ((results.take 3).enum.map (fun ri =>
      str "[Result " ++ str (toString (ri.1 + 1)) ++ str "]\nTitle: " ++
      ri.2.1 ++ str "\nURL: " ++ ri.2.2.1 ++ str "\nSnippet: " ++ ri.2.2.2 ++
      str "\n\n")).flatten

/-- `run_tool` (`src/tools.rs` lines 33-96): dispatch one validated action
against the world, returning the normalized result or a typed failure,
together with the external effects attempted. -/
def runTool (tool : Tool) (w : World) :
    Except AgentError ToolResult × List Effect :=
  match tool with
  | .ReadFile path =>
      (match w.readFile path with
       | .ok content => .ok (.Success content)
       | .error e => .error (.IoError e),
       [Effect.fsRead path])
  | .WriteFile path content =>
      (match w.writeFile path content with
       | .ok _ => .ok (.Success (str "File written successfully."))
       | .error e => .error (.IoError e),
       [Effect.fsWrite path content])
  | .RunCommand command =>
      (match w.runCommand command with
       | .error e => .error (.IoError e)
       | .ok out =>
           .ok (.Success (if out.success then out.stdout
             else str "STDOUT:\n" ++ out.stdout ++ str "\nSTDERR:\n" ++
               out.stderr)),
       [Effect.procRun command])
  | .Search query =>
      (match w.search query with
       | .configFail e => .error e
       | .noApiKey => .error (.ApiKeyMissing (str "Brave Search"))
       | .transportFail m => .error (.RequestError m)
       | .httpNonSuccess body =>
           .error (.ToolError (str "Brave Search API Error: " ++ body))
       | .ok results => .ok (.Success (formatSearchResults results)),
       [Effect.netSearch query])
  | .ListFiles path =>
      (.ok (.Success
        ((((w.walkdir path).filterMap (fun e => e.toOption)).filter
            (fun p => !hasSub (str "target/") p && !hasSub (str ".git/") p)).map
          (fun p => p ++ str "\n")).flatten),
       [Effect.walkList path])
  | .CodeGeneration _ =>
      (.error (.ToolError (str "CodeGeneration is not a runnable tool.")), [])

/-- `AIResponse` (`src/llm`): normalized result of a Generation Port call.
Cost is modelled as a rational. -/
structure AIResponse where
  content : Str
  input_tokens : Nat
  output_tokens : Nat
  cost : ℚ
  model : Str
  provider : Str

/-- `Orchestrator::decide_action` (`src/orchestrator.rs` lines 108-118),
given the outcome of `reasoning_client.generate_json` and the running cost
total: on a response, the reported cost is added first, then the content is
parsed (`lex` models JSON text lexing; `none` is malformed text) and
deserialized by `decisionFromJson`; a backend error propagates unchanged. -/
def decideAction (lex : Str → Option Json)
    (resp : Except AgentError AIResponse) (tracker : ℚ) :
    Except AgentError Decision × ℚ :=
  match resp with
  | .error e => (.error e, tracker)
  | .ok r =>
      let tracker := tracker + r.cost
      match lex r.content with
      | none =>
          (.error (.ResponseParseError (str "Failed to parse tool decision")),
           tracker)
      | some j =>
          match decisionFromJson j with
          | .ok d => (.ok d, tracker)
          | .error m =>
              (.error (.ResponseParseError
                (str "Failed to parse tool decision: " ++ m)), tracker)

/-- `CoderAgent::generate_code` (`src/agents/coder.rs` lines 17-24), given the
`generate` outcome and the running cost total: cost is added on receipt, the
content is trimmed. -/
def generateCode (resp : Except AgentError AIResponse) (tracker : ℚ) :
    Except AgentError Str × ℚ :=
  match resp with
  | .error e => (.error e, tracker)
  | .ok r => (.ok (rustTrim r.content), tracker + r.cost)

/-- `PlannerAgent::create_plan` (`src/agents/planner.rs` lines 16-22), given
the `generate` outcome and the running cost total.  The `LLMClient::generate`
this file uses (`src/llm.rs` line 16) returns bare text with no usage
metadata, and `PlannerAgent` holds no `CostTracker`, so the total passes
through untouched. -/
def createPlan (resp : Except AgentError Str) (tracker : ℚ) :
    Except AgentError (List Str) × ℚ :=
  match resp with
  | .error e => (.error e, tracker)
  | .ok r => (.ok (parsePlan r), tracker)

/-- `CostTracker::add_cost` (`src/cost_tracker.rs` lines 15-18). -/
def addCost (total cost : ℚ) : ℚ := total + cost

/-- The sub-agent calls `Orchestrator::execute_plan` makes, abstracted as
oracles: `decide` is `decide_action(step, context)` (generation, cost
tracking and parsing included) and `coder` is
`CoderAgent::generate_code(task, context)`. -/
structure StepEnv where
  decide : Str → Str → Except AgentError Decision
  coder : Str → Str → Except AgentError Str
  world : World

/-- The `other_tool` arm of the step loop (`src/orchestrator.rs` lines
87-102): dispatch the action; on success append the full output under
`Tool Output` (after computing the display summary, whose byte slice
`&output[..300]` can panic — modelled as `none`); on failure append the
failure's display text under `Tool Error`.  Either way the loop goes on. -/
def runDispatch (w : World) (st : AppState) (tool : Tool) : Option AppState :=
  match (runTool tool w).1 with
  | .ok (.Success output) =>
      match summarizeBytes 300 output with
      | none => none
      | some _ => some (addHistory st (str "Tool Output") output)
  | .error e => some (addHistory st (str "Tool Error") e.display)

/-- The body of `Orchestrator::execute_plan`'s step loop
(`src/orchestrator.rs` lines 64-104) over the remaining steps, carrying the
index of the next step.  `none` models a panic (context rendering or the
display truncation hitting a non-boundary byte); an `Except.error` aborts
the run; dispatcher failures are recorded and the loop continues. -/
def execSteps (env : StepEnv) : List Str → Nat → AppState →
    Option (Except AgentError Unit × AppState)
  | [], _, st => some (.ok (), st)
  | stepStr :: rest, i, st =>
      match getContext { st with current_step := i } with
      | none => none
      | some ctx =>
          match env.decide stepStr ctx with
          | .error e => some (.error e, { st with current_step := i })
          | .ok d =>
              match d.tool with
              | .CodeGeneration task =>
                  match getContext { st with current_step := i } with
                  | none => none
                  | some ctx2 =>
                      match env.coder task ctx2 with
                      | .error e => some (.error e, { st with current_step := i })
                      | .ok code =>
                          -- the `file_path` save (lines 79-85) only prints
                          -- its result; it is not recorded and never aborts
                          execSteps env rest (i + 1)
                            (addHistory { st with current_step := i }
                              (str "Generated Code") code)
              | other =>
                  match runDispatch env.world { st with current_step := i }
                      other with
                  | none => none
                  | some st2 => execSteps env rest (i + 1) st2

/-- `Orchestrator::execute_plan` (`src/orchestrator.rs` lines 62-106):
run every step of the stored plan in order. -/
def executePlan (env : StepEnv) (st : AppState) :
    Option (Except AgentError Unit × AppState) :=
  execSteps env st.plan 0 st

/-- The given chunks occur, disjointly and in this order, inside `s`. -/
def ChunksInOrder : List Str → Str → Prop
  | [], _ => True
  | p :: ps, s => ∃ a b, s = a ++ p ++ b ∧ ChunksInOrder ps b

theorem chunksInOrder_append_left {ps : List Str} {t : Str}
    (h : ChunksInOrder ps t) (x : Str) : ChunksInOrder ps (x ++ t) := by
  cases ps with
  | nil => trivial
  | cons p ps' =>
      obtain ⟨a, b, ht, hb⟩ := h
      exact ⟨x ++ a, b, by rw [ht]; simp, hb⟩

theorem getUnique_ok_some {k : Str} {v : Json} :
    ∀ {fields : List (Str × Json)}, getUnique k fields = .ok (some v) →
      lookupFirst k fields = some v := by
  intro fields
  induction fields with
  | nil => intro h; cases h
  | cons kv rest ih =>
      intro h
      unfold getUnique at h
      unfold lookupFirst
      by_cases hk : kv.1 = k
      · rw [if_pos hk] at h
        rw [if_pos hk]
        rcases hl : lookupFirst k rest with _ | w <;> rw [hl] at h
        · cases h; rfl
        · cases h
      · rw [if_neg hk] at h
        rw [if_neg hk]
        exact ih h

theorem getUnique_ok_none {k : Str} :
    ∀ {fields : List (Str × Json)}, getUnique k fields = .ok none →
      lookupFirst k fields = none := by
  intro fields
  induction fields with
  | nil => intro _; rfl
  | cons kv rest ih =>
      intro h
      unfold getUnique at h
      unfold lookupFirst
      by_cases hk : kv.1 = k
      · rw [if_pos hk] at h
        rcases hl : lookupFirst k rest with _ | w <;> rw [hl] at h <;> cases h
      · rw [if_neg hk] at h
        rw [if_neg hk]
        exact ih h

theorem lookupFirst_none_getUnique {k : Str} :
    ∀ {fields : List (Str × Json)}, lookupFirst k fields = none →
      getUnique k fields = .ok none := by
  intro fields
  induction fields with
  | nil => intro _; rfl
  | cons kv rest ih =>
      intro h
      unfold lookupFirst at h
      unfold getUnique
      by_cases hk : kv.1 = k
      · rw [if_pos hk] at h; cases h
      · rw [if_neg hk] at h
        rw [if_neg hk]
        exact ih h

theorem reqStrField_ok {k : Str} {pf : List (Str × Json)} {s : Str}
    (h : reqStrField k pf = .ok s) :
    lookupFirst k pf = some (Json.strVal s) := by
  unfold reqStrField at h
  rcases hg : getUnique k pf with e | (_ | v) <;> rw [hg] at h
  · cases h
  · cases h
  · cases v with
    | strVal s' => cases h; exact getUnique_ok_some hg
    | null => cases h
    | bool b => cases h
    | num n => cases h
    | arr xs => cases h
    | obj f => cases h

theorem toolFromFields_ok {tag : Str} {pf : List (Str × Json)} {tool : Tool}
    (h : toolFromFields tag pf = .ok tool) :
    (requiredKeys tag).all (fun k => (lookupFirst k pf).isSome) = true := by
  unfold toolFromFields at h
  split_ifs at h with h1 h2 h3 h4 h5 h6
  · subst h1
    rcases hr : reqStrField (str "path") pf with e | s <;> rw [hr] at h
    · cases h
    · simp +decide [requiredKeys, reqStrField_ok hr]
  · subst h2
    rcases hr : reqStrField (str "path") pf with e | s <;>
      rcases hc : reqStrField (str "content") pf with e' | s' <;>
      rw [hr, hc] at h
    · cases h
    · cases h
    · cases h
    · simp +decide [requiredKeys, reqStrField_ok hr, reqStrField_ok hc]
  · subst h3
    rcases hr : reqStrField (str "command") pf with e | s <;> rw [hr] at h
    · cases h
    · simp +decide [requiredKeys, reqStrField_ok hr]
  · subst h4
    rcases hr : reqStrField (str "query") pf with e | s <;> rw [hr] at h
    · cases h
    · simp +decide [requiredKeys, reqStrField_ok hr]
  · subst h5
    rcases hr : reqStrField (str "path") pf with e | s <;> rw [hr] at h
    · cases h
    · simp +decide [requiredKeys, reqStrField_ok hr]
  · subst h6
    rcases hr : reqStrField (str "task") pf with e | s <;> rw [hr] at h
    · cases h
    · simp +decide [requiredKeys, reqStrField_ok hr]

theorem toolFromTag_ok {tag : Str} {params : Json} {tool : Tool}
    (h : toolFromTag tag params = .ok tool) :
    isActionTag tag = true ∧
      ∃ pf, params = Json.obj pf ∧
        (requiredKeys tag).all (fun k => (lookupFirst k pf).isSome) = true := by
  unfold toolFromTag at h
  by_cases ha : isActionTag tag
  · rw [if_pos ha] at h
    cases params with
    | obj pf => exact ⟨ha, pf, rfl, toolFromFields_ok h⟩
    | null => cases h
    | bool b => cases h
    | num n => cases h
    | strVal s => cases h
    | arr xs => cases h
  · rw [if_neg ha] at h
    cases h

theorem reqField_ok {k : Str} {fields : List (Str × Json)} {v : Json}
    (h : reqField k fields = .ok v) : lookupFirst k fields = some v := by
  unfold reqField at h
  rcases hg : getUnique k fields with e | (_ | w) <;> rw [hg] at h
  · cases h
  · cases h
  · cases h
    exact getUnique_ok_some hg

theorem decisionFromObj_sound {fields : List (Str × Json)} {d : Decision}
    (h : decisionFromObj fields = .ok d) :
    specValidDecision (Json.obj fields) = true := by
  unfold decisionFromObj at h
  rcases h1 : reqStrField (str "thought") fields with e | thought <;>
    rw [h1] at h
  · cases h
  dsimp only at h
  rcases h2 : reqStrField (str "tool_name") fields with e | tag <;>
    rw [h2] at h
  · cases h
  dsimp only at h
  rcases h3 : reqField (str "parameters") fields with e | params <;>
    rw [h3] at h
  · cases h
  dsimp only at h
  rcases h4 : toolFromTag tag params with e | tool <;> rw [h4] at h
  · cases h
  obtain ⟨htag, pf, hpf, hreq⟩ := toolFromTag_ok h4
  subst hpf
  simp [specValidDecision, reqStrField_ok h2, reqField_ok h3, htag, hreq]

theorem decisionFromJson_sound {j : Json} {d : Decision}
    (h : decisionFromJson j = .ok d) : specValidDecision j = true := by
  cases j with
  | obj fields => exact decisionFromObj_sound h
  | null => cases h
  | bool b => cases h
  | num n => cases h
  | strVal s => cases h
  | arr xs => cases h

theorem decisionFromObj_fp_none {fields : List (Str × Json)} {d : Decision}
    (hfp : lookupFirst (str "file_path") fields = none)
    (h : decisionFromObj fields = .ok d) : d.file_path = none := by
  unfold decisionFromObj at h
  rcases h1 : reqStrField (str "thought") fields with e | thought <;>
    rw [h1] at h
  · cases h
  dsimp only at h
  rcases h2 : reqStrField (str "tool_name") fields with e | tag <;>
    rw [h2] at h
  · cases h
  dsimp only at h
  rcases h3 : reqField (str "parameters") fields with e | params <;>
    rw [h3] at h
  · cases h
  dsimp only at h
  rcases h4 : toolFromTag tag params with e | tool <;> rw [h4] at h
  · cases h
  dsimp only at h
  have h5 : optStrField (str "file_path") fields = .ok none := by
    unfold optStrField
    rw [lookupFirst_none_getUnique hfp]
  rw [h5] at h
  cases h
  rfl

theorem renderHistory_chunks :
    ∀ (hist : List (Str × Str)) (parts : List Str),
      renderHistory hist = some parts →
      ChunksInOrder (hist.map (fun e => str "[" ++ e.1 ++ str "]"))
        parts.flatten := by
  intro hist
  induction hist with
  | nil =>
      intro parts h
      cases h
      exact trivial
  | cons e rest ih =>
      intro parts h
      unfold renderHistory at h
      rcases hre : renderEntry e with _ | p <;> rw [hre] at h
      · cases h
      rcases hrh : renderHistory rest with _ | ps <;> rw [hrh] at h
      · cases h
      cases h
      unfold renderEntry at hre
      rcases hsm : summarizeBytes 500 e.2 with _ | sm <;> rw [hsm] at hre
      · cases hre
      cases hre
      refine ⟨[], str "\n" ++ sm ++ str "\n---\n" ++ ps.flatten, ?_, ?_⟩
      · simp [str]
      · exact chunksInOrder_append_left (ih ps hrh) _

theorem getContext_chunks {st : AppState} {s : Str}
    (h : getContext st = some s) :
    ChunksInOrder (st.history.map (fun e => str "[" ++ e.1 ++ str "]")) s := by
  unfold getContext at h
  rcases hh : st.history with _ | ⟨e, rest⟩
  · exact trivial
  · rw [hh] at h
    simp only [List.isEmpty_cons, Bool.false_eq_true, if_false] at h
    rcases hr : renderHistory (e :: rest) with _ | parts <;> rw [hr] at h
    · cases h
    cases h
    exact chunksInOrder_append_left (renderHistory_chunks _ _ hr) _

theorem findSub_none_of_not_has {pat l : Str} (h : hasSub pat l = false) :
    findSub pat l = none := by
  unfold hasSub at h
  rcases hf : findSub pat l with _ | n
  · rfl
  · rw [hf] at h
    cases h

theorem stripNumbering_id {l : Str} (h : hasSub (str ". ") l = false) :
    stripNumbering l = l := by
  unfold stripNumbering
  rw [findSub_none_of_not_has h]

theorem hasSub_cons (pat : Str) (c : Char) (rest : Str) :
    hasSub pat (c :: rest) = (pat.isPrefixOf (c :: rest) || hasSub pat rest) := by
  unfold hasSub
  have he : findSub pat (c :: rest) =
      if pat.isPrefixOf (c :: rest) then some 0
      else (findSub pat rest).map (· + 1) := rfl
  rw [he]
  cases hp : List.isPrefixOf pat (c :: rest) <;> simp [hp, Option.isSome_map]

theorem findSub_dot_space (b : Str) :
    ∀ a : Str, hasSub (str ". ") a = false →
      findSub (str ". ") (a ++ (str ". " ++ b)) = some a.length := by
  intro a
  induction a with
  | nil =>
      intro _
      simp [findSub, str, List.isPrefixOf]
  | cons c a' ih =>
      intro h
      rw [hasSub_cons] at h
      have hp : List.isPrefixOf (str ". ") (c :: a') = false := by
        cases hq : List.isPrefixOf (str ". ") (c :: a')
        · rfl
        · rw [hq] at h; cases h
      have h' : hasSub (str ". ") a' = false := by
        cases hq : hasSub (str ". ") a'
        · rfl
        · rw [hq] at h; simp at h
      have hpre :
          List.isPrefixOf (str ". ") (c :: (a' ++ (str ". " ++ b))) = false := by
        cases a' with
        | nil => simp +decide [str, List.isPrefixOf]
        | cons d a'' =>
            calc List.isPrefixOf (str ". ")
                  (c :: (d :: a'' ++ (str ". " ++ b)))
                = List.isPrefixOf (str ". ") (c :: d :: a'') := by
                  simp [str, List.isPrefixOf]
              _ = false := hp
      rw [List.cons_append]
      unfold findSub
      rw [hpre]
      rw [ih h']
      simp

theorem stripNumbering_strips {a : Str} (b : Str)
    (h : hasSub (str ". ") a = false) :
    stripNumbering (a ++ (str ". " ++ b)) = b := by
  unfold stripNumbering
  rw [findSub_dot_space b a h]
  show (a ++ (str ". " ++ b)).drop (a.length + 2) = b
  have h3 : a ++ (str ". " ++ b) = (a ++ str ". ") ++ b := by
    simp [List.append_assoc]
  have h2 : a.length + 2 = (a ++ str ". ").length := by simp [str]
  rw [h3, h2]
  exact List.drop_left _ _

theorem splitNl_ne_nil : ∀ s : Str, splitNl s ≠ [] := by
  intro s
  cases s with
  | nil => simp [splitNl]
  | cons c rest =>
      have he : splitNl (c :: rest) =
          match splitNl rest with
          | [] => [[]]
          | g :: gs => if c = '\n' then [] :: g :: gs else (c :: g) :: gs :=
        rfl
      rw [he]
      rcases hr : splitNl rest with _ | ⟨g, gs⟩
      · try rw [hr]
        simp
      · try rw [hr]
        dsimp only
        split <;> simp

theorem splitNl_nonl (t : Str) :
    ∀ q : Str, '\n' ∉ q → splitNl (q ++ '\n' :: t) = q :: splitNl t := by
  intro q
  induction q with
  | nil =>
      intro _
      have he : splitNl ([] ++ '\n' :: t) =
          match splitNl t with
          | [] => [[]]
          | g :: gs => if '\n' = '\n' then [] :: g :: gs
              else ('\n' :: g) :: gs :=
        rfl
      rw [he]
      rcases hr : splitNl t with _ | ⟨g, gs⟩
      · exact absurd hr (splitNl_ne_nil t)
      · try rw [hr]
        simp
  | cons c q' ih =>
      intro hmem
      have hc : ¬c = '\n' := fun hh => hmem (by simp [hh])
      have hm' : '\n' ∉ q' := fun hh => hmem (List.mem_cons_of_mem _ hh)
      have he : splitNl ((c :: q') ++ '\n' :: t) =
          match splitNl (q' ++ '\n' :: t) with
          | [] => [[]]
          | g :: gs => if c = '\n' then [] :: g :: gs else (c :: g) :: gs :=
        rfl
      rw [he, ih hm']
      simp [hc]

theorem splitNl_flatten :
    ∀ l : List Str, (∀ q ∈ l, '\n' ∉ q) →
      splitNl ((l.map (fun p => p ++ ['\n'])).flatten) = l ++ [[]] := by
  intro l
  induction l with
  | nil => intro _; simp [splitNl]
  | cons q rest ih =>
      intro hq
      simp only [List.map_cons, List.flatten_cons]
      have hsh : (q ++ ['\n']) ++ ((rest.map (fun p => p ++ ['\n'])).flatten) =
          q ++ '\n' :: ((rest.map (fun p => p ++ ['\n'])).flatten) := by
        simp [List.append_assoc]
      rw [hsh, splitNl_nonl _ q (hq q (by simp)),
        ih (fun p hp => hq p (by simp [hp]))]
      simp

theorem rustLines_flatten (l : List Str) (h : ∀ q ∈ l, '\n' ∉ q) :
    rustLines ((l.map (fun p => p ++ str "\n")).flatten) = l := by
  unfold rustLines
  have he : str "\n" = ['\n'] := rfl
  rw [he, splitNl_flatten l h]
  simp [List.getLast?_concat, List.dropLast_concat]

theorem execSteps_ok {env : StepEnv}
    (hd : ∀ s c, (env.decide s c).isOk = true)
    (hc : ∀ t c, (env.coder t c).isOk = true) :
    ∀ (steps : List Str) (i : Nat) (st : AppState)
      (r : Except AgentError Unit × AppState),
      execSteps env steps i st = some r → r.1 = .ok () := by
  intro steps
  induction steps with
  | nil =>
      intro i st r h
      cases h
      rfl
  | cons stepStr rest ih =>
      intro i st r h
      unfold execSteps at h
      rcases hg : getContext { st with current_step := i } with _ | ctx <;>
        rw [hg] at h
      · cases h
      dsimp only at h
      rcases hdec : env.decide stepStr ctx with e | d <;> rw [hdec] at h
      · have hk := hd stepStr ctx
        rw [hdec] at hk
        simp [Except.isOk, Except.toBool] at hk
      dsimp only at h
      rcases ht : d.tool with p | ⟨p, c⟩ | cmd | q | lp | task <;> rw [ht] at h <;> dsimp only at h
      · rcases hrd : runDispatch env.world { st with current_step := i }
            (.ReadFile p) with _ | st2 <;> rw [hrd] at h <;> dsimp only at h
        · cases h
        · exact ih _ _ _ h
      · rcases hrd : runDispatch env.world { st with current_step := i }
            (.WriteFile p c) with _ | st2 <;> rw [hrd] at h <;> dsimp only at h
        · cases h
        · exact ih _ _ _ h
      · rcases hrd : runDispatch env.world { st with current_step := i }
            (.RunCommand cmd) with _ | st2 <;> rw [hrd] at h <;> dsimp only at h
        · cases h
        · exact ih _ _ _ h
      · rcases hrd : runDispatch env.world { st with current_step := i }
            (.Search q) with _ | st2 <;> rw [hrd] at h <;> dsimp only at h
        · cases h
        · exact ih _ _ _ h
      · rcases hrd : runDispatch env.world { st with current_step := i }
            (.ListFiles lp) with _ | st2 <;> rw [hrd] at h <;> dsimp only at h
        · cases h
        · exact ih _ _ _ h
      · rcases hcod : env.coder task ctx with e | code <;> rw [hcod] at h
        · have hk := hc task ctx
          rw [hcod] at hk
          simp [Except.isOk, Except.toBool] at hk
        dsimp only at h
        exact ih _ _ _ h

/-! ## Fixtures for the claims -/

set_option maxRecDepth 8192

/-- A content whose 500th byte falls inside the two-byte UTF-8 character
`'é'`: 499 ASCII bytes followed by one two-byte character (501 bytes,
500 characters). -/
def badBoundaryContent : Str := List.replicate 499 'a' ++ ['é']

/-- A world whose oracles are all inert. -/
def wIdle : World :=
  { readFile := fun _ => .error (str "io"),
    writeFile := fun _ _ => .ok (),
    runCommand := fun _ => .error (str "spawn"),
    walkdir := fun _ => [],
    search := fun _ => .noApiKey }

/-- A world in which every command exits with nonzero status, empty stdout
and stderr text `err`. -/
def wExit1 : World :=
  { wIdle with runCommand := fun _ => .ok ⟨false, [], str "err"⟩ }

/-- A world in which every command exits with status zero, stdout `hi\n`,
and noise on stderr. -/
def wEcho : World :=
  { wIdle with runCommand := fun _ => .ok ⟨true, str "hi\n", str "noise"⟩ }

/-- A world whose directory walk yields the root, an ordinary file, a
build-artifact directory `./target` with a file inside it, and one
unreadable entry. -/
def wTargetDir : World :=
  { wIdle with walkdir := fun _ =>
      [.ok (str "."), .ok (str "./main.rs"), .ok (str "./target"),
       .ok (str "./target/debug/app"), .error (str "permission denied")] }

/-- The example decision response of the spec: `tool_name: "ReadFile"`,
`parameters: {"path": p}`, `file_path` omitted. -/
def readFileDecisionJson (t p : Str) : Json :=
  Json.obj
    [(str "thought", Json.strVal t),
     (str "tool_name", Json.strVal (str "ReadFile")),
     (str "parameters", Json.obj [(str "path", Json.strVal p)])]

/-! ## The claims -/

/-- C1: Decision parsing is strict.  (i) Whenever deserialization succeeds
the response was a JSON object whose `tool_name` is one of the six closed
Action tags with the variant's required fields present in `parameters`
(hence any unknown tag, missing required field, or non-object input is a
parse failure, with no default action); (ii) the spec's example — tag
`ReadFile` with `parameters {path: p}` — yields the `ReadFile` variant with
that path; (iii) omitting `file_path` yields it as absent (`none`), never
an empty string; (iv) a response whose text is not valid JSON is a hard
`ResponseParseError` in `decide_action`. -/
theorem decision_parsing_strict :
    (∀ (j : Json) (d : Decision), decisionFromJson j = .ok d →
      specValidDecision j = true) ∧
    (∀ t p : Str, decisionFromJson (readFileDecisionJson t p) =
      .ok ⟨t, Tool.ReadFile p, none⟩) ∧
    (∀ (fields : List (Str × Json)) (d : Decision),
      lookupFirst (str "file_path") fields = none →
      decisionFromJson (Json.obj fields) = .ok d → d.file_path = none) ∧
    (∀ (lex : Str → Option Json) (r : AIResponse) (tr : ℚ),
      lex r.content = none →
      (decideAction lex (.ok r) tr).1 =
        .error (.ResponseParseError (str "Failed to parse tool decision"))) := by
  refine ⟨fun j d h => decisionFromJson_sound h, fun t p => rfl,
    fun fields d hfp h => decisionFromObj_fp_none hfp h, ?_⟩
  intro lex r tr hl
  simp [decideAction, hl]

/-- C1 witness: the spec's own example evaluated. -/
theorem decision_parsing_strict_witness :
    specValidDecision (readFileDecisionJson (str "t") (str "x")) = true ∧
    decisionFromJson (readFileDecisionJson (str "t") (str "x")) =
      .ok ⟨str "t", Tool.ReadFile (str "x"), none⟩ ∧
    (decideAction (fun _ => none)
        (.ok ⟨str "not json", 1, 1, 1, str "m", str "p"⟩) 0).1 =
      .error (.ResponseParseError (str "Failed to parse tool decision")) :=
  ⟨decision_parsing_strict.1 _ _ rfl,
   decision_parsing_strict.2.1 (str "t") (str "x"),
   decision_parsing_strict.2.2.2 (fun _ => none)
     ⟨str "not json", 1, 1, 1, str "m", str "p"⟩ 0 rfl⟩

/-- C2: the code's truncation is a byte slice `&content[..500]` guarded only
by the byte length, so a history entry whose 500th byte boundary falls
inside a multi-byte UTF-8 character makes `get_context` panic (modelled as
`none`): rendering produces no output at all, where the claim requires a
capped prefix plus ellipsis and no panic.  The failing content has 500
characters (not over the spec's character cap) and 501 bytes. -/
theorem context_truncation_panics :
    getContext ⟨str "g", [], [(str "L", badBoundaryContent)], 0⟩ = none ∧
    byteLen badBoundaryContent = 501 ∧
    badBoundaryContent.length = 500 ∧
    summarizeBytes 500 badBoundaryContent = none := by
  refine ⟨rfl, rfl, rfl, rfl⟩

/-- C4: dispatching `CodeGeneration` directly always fails — the dispatcher
returns the failure the spec's taxonomy calls `InvalidAction` (in the code,
`AgentError::ToolError("CodeGeneration is not a runnable tool.")`, the one
error reserved for this case) — and attempts no effect whatsoever: the
effect trace is empty for every task and every world. -/
theorem codegeneration_not_dispatchable :
    ∀ (task : Str) (w : World),
      runTool (Tool.CodeGeneration task) w =
        (.error (.ToolError (str "CodeGeneration is not a runnable tool.")),
         []) :=
  fun _ _ => rfl

/-- C5 counterexample: the line `Run it. Then stop` contains no leading
numeric marker, yet `parse_plan` does not pass it through unchanged — it
strips everything up to the first `". "` anywhere in the line, yielding
`Then stop`. -/
theorem plan_parse_strips_without_numeric_marker :
    parsePlan (str "Run it. Then stop") = [str "Then stop"] ∧
    ¬ parsePlan (str "Run it. Then stop") = [str "Run it. Then stop"] := by
  refine ⟨rfl, by decide⟩

/-- C5 as amended: plan parsing splits on line boundaries, trims each line,
drops blank lines, and for each remaining line strips everything up to and
including the FIRST occurrence of `". "` anywhere in the line — numeric
prefix or not; only lines not containing `". "` at all pass through
unchanged.  The spec's concrete examples all hold. -/
theorem plan_parsing_behavior :
    parsePlan (str "1. A\n2. B\n3. C") = [str "A", str "B", str "C"] ∧
    parsePlan (str "A\nB\nC") = [str "A", str "B", str "C"] ∧
    parsePlan (str "\n 1. A\n\n   \n2. B\n") = [str "A", str "B"] ∧
    parsePlan (str "   \n  \t\n  ") = [] ∧
    (∀ l : Str, hasSub (str ". ") l = false → stripNumbering l = l) ∧
    (∀ a b : Str, hasSub (str ". ") a = false →
      stripNumbering (a ++ (str ". " ++ b)) = b) := by
  refine ⟨by decide, by decide, by decide, by decide, ?_, ?_⟩
  · exact fun l h => stripNumbering_id h
  · exact fun a b h => stripNumbering_strips b h

/-- C5 witness: the stripping rule evaluated at concrete lines. -/
theorem plan_parsing_behavior_witness :
    stripNumbering (str "e.g" ++ (str ". " ++ str "use cargo")) =
      str "use cargo" ∧
    stripNumbering (str "no marker here") = str "no marker here" :=
  ⟨plan_parsing_behavior.2.2.2.2.2 (str "e.g") (str "use cargo") (by decide),
   plan_parsing_behavior.2.2.2.2.1 (str "no marker here") (by decide)⟩

/-- C6: the Plan Generator's Generation Port call adds nothing to the Cost
Accumulator — `PlannerAgent` holds no tracker and its `create_plan` leaves
the running total untouched for every response — while the Code Generator's
and Decision Resolver's calls do fold their reported cost in immediately
upon receipt.  (The accumulator itself is only ever mutated by `add_cost`,
a plain addition.) -/
theorem planner_cost_not_tracked :
    (∀ (resp : Except AgentError Str) (tracker : ℚ),
      (createPlan resp tracker).2 = tracker) ∧
    (∀ (r : AIResponse) (tracker : ℚ),
      (generateCode (.ok r) tracker).2 = tracker + r.cost) ∧
    (∀ (lex : Str → Option Json) (r : AIResponse) (tracker : ℚ),
      (decideAction lex (.ok r) tracker).2 = tracker + r.cost) ∧
    createPlan (.ok (str "1. step one")) 0 = (.ok [str "step one"], 0) ∧
    (∀ total cost : ℚ, 0 ≤ cost → total ≤ addCost total cost) := by
  refine ⟨?_, fun r tracker => rfl, ?_, rfl, ?_⟩
  · intro resp tracker
    cases resp <;> rfl
  · intro lex r tracker
    rcases hl : lex r.content with _ | j
    · simp [decideAction, hl]
    · rcases hd : decisionFromJson j with e | d <;>
        simp [decideAction, hl, hd]
  · intro total cost h
    simpa [addCost] using h

/-- C6 witness: a planner call reporting cost leaves the total at `0`;
`add_cost` with a nonnegative cost never decreases the total. -/
theorem planner_cost_not_tracked_witness :
    createPlan (.ok (str "1. step one")) 0 = (.ok [str "step one"], 0) ∧
    (2 : ℚ) ≤ addCost 2 1 :=
  ⟨planner_cost_not_tracked.2.2.2.1,
   planner_cost_not_tracked.2.2.2.2 2 1 (by norm_num)⟩

/-- A step environment whose Decision Resolver always succeeds (choosing
`CodeGeneration`) and whose Code Generator always fails. -/
def envCoderFails : StepEnv :=
  { decide := fun _ _ => .ok ⟨str "t", Tool.CodeGeneration (str "task"), none⟩,
    coder := fun _ _ => .error (.LLMError (str "backend down")),
    world := wIdle }

/-- A one-step plan in a fresh session. -/
def stOneStep : AppState := ⟨str "g", [str "write code"], [], 0⟩

/-- A step environment in which every sub-agent call succeeds: decisions
always pick `ListFiles "."` and the coder always returns code. -/
def envListOk : StepEnv :=
  { decide := fun _ _ => .ok ⟨str "t", Tool.ListFiles (str "."), none⟩,
    coder := fun _ _ => .ok (str "code"),
    world := wIdle }

/-- The state `envListOk` produces from `stOneStep`: one `Tool Output`
entry (the empty listing) appended. -/
def stListDone : AppState :=
  ⟨str "g", [str "write code"], [(str "Tool Output", [])], 0⟩

/-- C3 counterexample: with a plan of one step, a Decision Resolver that
succeeds on every step and a Code Generator that fails, the run aborts with
the Code Generator's error — so a failure outside the Plan Generator and
the Decision Resolver also aborts the entire run, contradicting the claim's
"only". -/
theorem coder_failure_aborts_run :
    executePlan envCoderFails stOneStep =
      some (.error (.LLMError (str "backend down")),
        ⟨str "g", [str "write code"], [], 0⟩) := rfl

/-- C3 as amended: a dispatcher-level `ToolError` during a step is caught at
the per-step boundary — the failure's display text is appended to history
under `Tool Error` and the loop advances — and whenever every Decision
Resolver call and every Code Generator call succeeds, any completing run
returns success (`Ok`), no matter how many dispatches failed.  A failure of
the Code Generator aborts the run just as a Decision Resolver failure does
(and a mid-loop byte-boundary panic in context rendering or display
truncation prevents completion altogether). -/
theorem execute_loop_error_containment :
    (∀ (env : StepEnv) (st : AppState)
      (r : Except AgentError Unit × AppState),
      (∀ s c, (env.decide s c).isOk = true) →
      (∀ t c, (env.coder t c).isOk = true) →
      executePlan env st = some r → r.1 = .ok ()) ∧
    (∀ (w : World) (st : AppState) (tool : Tool) (e : AgentError),
      (runTool tool w).1 = .error e →
      runDispatch w st tool =
        some (addHistory st (str "Tool Error") e.display)) := by
  constructor
  · intro env st r hd hc h
    exact execSteps_ok hd hc st.plan 0 st r h
  · intro w st tool e h
    simp [runDispatch, h]

/-- C3 witness: a run whose single dispatch is a (successful) `ListFiles`
completes with `Ok`, by the containment theorem; and a failing `ReadFile`
dispatch is recorded as a `Tool Error` entry. -/
theorem execute_loop_error_containment_witness :
    ((.ok (), stListDone) : Except AgentError Unit × AppState).1 = .ok () ∧
    executePlan envListOk stOneStep = some (.ok (), stListDone) ∧
    runDispatch wIdle (AppState.new (str "g")) (Tool.ReadFile (str "f")) =
      some (addHistory (AppState.new (str "g")) (str "Tool Error")
        (str "I/O error: io")) :=
  ⟨execute_loop_error_containment.1 envListOk stOneStep (.ok (), stListDone)
      (fun _ _ => rfl) (fun _ _ => rfl) rfl,
   rfl,
   execute_loop_error_containment.2 wIdle (AppState.new (str "g"))
     (Tool.ReadFile (str "f")) (.IoError (str "io")) rfl⟩

/-- C7: whenever the subprocess spawned for a command exits with nonzero
status, the dispatcher does not fail: it returns a success-wrapped string
`STDOUT:\n…\nSTDERR:\n…` combining both captured streams, and that string
contains the `STDOUT:` and `STDERR:` markers in order. -/
theorem runcommand_nonzero_exit_is_success :
    ∀ (w : World) (cmd out errS : Str),
      w.runCommand cmd = .ok ⟨false, out, errS⟩ →
      (runTool (Tool.RunCommand cmd) w).1 =
        .ok (.Success (str "STDOUT:\n" ++ out ++ str "\nSTDERR:\n" ++ errS)) ∧
      ChunksInOrder [str "STDOUT:", str "STDERR:"]
        (str "STDOUT:\n" ++ out ++ str "\nSTDERR:\n" ++ errS) := by
  intro w cmd out errS h
  refine ⟨by simp [runTool, h], ?_⟩
  refine ⟨[], str "\n" ++ out ++ str "\nSTDERR:\n" ++ errS, by simp [str], ?_⟩
  refine ⟨str "\n" ++ out ++ str "\n", str "\n" ++ errS, ?_, trivial⟩
  simp [str]

/-- C7 witness: `RunCommand "exit 1"` in a world where the command exits
nonzero with empty stdout. -/
theorem runcommand_nonzero_exit_is_success_witness :
    (runTool (Tool.RunCommand (str "exit 1")) wExit1).1 =
      .ok (.Success (str "STDOUT:\n\nSTDERR:\nerr")) ∧
    ChunksInOrder [str "STDOUT:", str "STDERR:"]
      (str "STDOUT:\n\nSTDERR:\nerr") :=
  runcommand_nonzero_exit_is_success wExit1 (str "exit 1") [] (str "err") rfl

/-- C10: whenever the subprocess exits with status zero, the dispatcher
returns exactly the captured stdout as the success output — the combined
`STDOUT:`/`STDERR:` format is not produced, and whatever the command wrote
to stderr (`errS`, arbitrary here) is absent from the result. -/
theorem runcommand_zero_exit_stdout_only :
    ∀ (w : World) (cmd out errS : Str),
      w.runCommand cmd = .ok ⟨true, out, errS⟩ →
      (runTool (Tool.RunCommand cmd) w).1 = .ok (.Success out) := by
  intro w cmd out errS h
  simp [runTool, h]

/-- C10 witness: a zero-exit command returns its stdout only, with the
stderr noise discarded. -/
theorem runcommand_zero_exit_stdout_only_witness :
    (runTool (Tool.RunCommand (str "echo hi")) wEcho).1 =
      .ok (.Success (str "hi\n")) :=
  runcommand_zero_exit_stdout_only wEcho (str "echo hi") (str "hi\n")
    (str "noise") rfl

/-- C8: `append` never fails and never removes or edits a previous entry —
it is exactly a push onto the end of the history — and every rendering that
completes contains every appended label bracketed as `[label]`, in exactly
the append order.  But the universal claim fails on the code as written:
a history whose second entry is `badBoundaryContent` makes `render()` panic
(the byte-slice bug of C2), so no rendering exists and the labels appear in
none — evaluated here on the concrete two-entry history. -/
theorem history_append_render_order :
    (∀ (st : AppState) (l c : Str),
      (addHistory st l c).history = st.history ++ [(l, c)]) ∧
    (∀ (st : AppState) (s : Str), getContext st = some s →
      ChunksInOrder (st.history.map (fun e => str "[" ++ e.1 ++ str "]")) s) ∧
    (addHistory ⟨str "g", [], [(str "A", str "x")], 0⟩ (str "B")
        badBoundaryContent).history =
      [(str "A", str "x"), (str "B", badBoundaryContent)] ∧
    getContext ⟨str "g", [], [(str "A", str "x"),
      (str "B", badBoundaryContent)], 0⟩ = none := by
  refine ⟨fun st l c => rfl, fun st s h => getContext_chunks h, rfl, rfl⟩

/-- C8 witness: on a two-entry history the rendering exists and contains
`[A]` then `[B]` in order, and a third append extends the history at the
end. -/
theorem history_append_render_order_witness :
    ChunksInOrder [str "[A]", str "[B]"]
      (str "The overall goal is: g\n\n--- History & Context ---\n[A]\nx\n---\n[B]\ny\n---\n") ∧
    (addHistory ⟨str "g", [], [(str "A", str "x"), (str "B", str "y")], 0⟩
        (str "C") (str "z")).history =
      [(str "A", str "x"), (str "B", str "y"), (str "C", str "z")] :=
  ⟨history_append_render_order.2.1
      ⟨str "g", [], [(str "A", str "x"), (str "B", str "y")], 0⟩ _ rfl,
   history_append_render_order.1
     ⟨str "g", [], [(str "A", str "x"), (str "B", str "y")], 0⟩
     (str "C") (str "z")⟩

/-- C9 counterexample: over a directory containing the build-artifact
subdirectory `./target` (with a file inside) and the ordinary file
`./main.rs`, `ListFiles` does not return only the ordinary file's path: the
substring filter `"target/"` lets the root `.` and the directory path
`./target` itself through (no trailing slash), excluding only the entries
below it. -/
theorem listfiles_includes_target_dir_path :
    (runTool (Tool.ListFiles (str ".")) wTargetDir).1 =
      .ok (.Success (str ".\n./main.rs\n./target\n")) ∧
    ¬ str ".\n./main.rs\n./target\n" = str "./main.rs\n" := by
  refine ⟨rfl, by decide⟩

/-- C9 as amended: `ListFiles` walks the root's entries in order, skips
unreadable entries, keeps exactly those yielded paths that contain neither
the SUBSTRING `target/` nor the substring `.git/` (a substring test, not a
directory-segment test: a directory's own path, with no trailing slash,
passes), and always returns success.  When no yielded path contains a
newline, the returned text splits back into exactly the kept paths, in walk
order. -/
theorem listfiles_filter_behavior :
    (∀ (w : World) (path : Str),
      (runTool (Tool.ListFiles path) w).1 = .ok (.Success
        (((((w.walkdir path).filterMap Except.toOption).filter
            (fun p => !hasSub (str "target/") p && !hasSub (str ".git/") p)).map
          (fun p => p ++ str "\n")).flatten))) ∧
    (∀ (w : World) (path : Str),
      (∀ q ∈ (w.walkdir path).filterMap Except.toOption, '\n' ∉ q) →
      rustLines
        (((((w.walkdir path).filterMap Except.toOption).filter
            (fun p => !hasSub (str "target/") p && !hasSub (str ".git/") p)).map
          (fun p => p ++ str "\n")).flatten) =
        ((w.walkdir path).filterMap Except.toOption).filter
          (fun p => !hasSub (str "target/") p && !hasSub (str ".git/") p)) ∧
    (∀ (w : World) (path p : Str),
      (∀ q ∈ (w.walkdir path).filterMap Except.toOption, '\n' ∉ q) →
      (p ∈ rustLines
        (((((w.walkdir path).filterMap Except.toOption).filter
            (fun p => !hasSub (str "target/") p && !hasSub (str ".git/") p)).map
          (fun p => p ++ str "\n")).flatten) ↔
        p ∈ (w.walkdir path).filterMap Except.toOption ∧
          hasSub (str "target/") p = false ∧ hasSub (str ".git/") p = false)) := by
  refine ⟨fun w path => rfl, ?_, ?_⟩
  · intro w path hq
    exact rustLines_flatten _
      (fun q hqf => hq q (List.mem_of_mem_filter hqf))
  · intro w path p hq
    rw [rustLines_flatten _ (fun q hqf => hq q (List.mem_of_mem_filter hqf))]
    simp [List.mem_filter]

/-- C9 witness: the walk over `wTargetDir` evaluated — `ListFiles` reports
the root, the ordinary file and the `./target` directory path, skipping the
entries under `target/` and the unreadable entry, and the output splits
back into exactly those kept paths. -/
theorem listfiles_filter_behavior_witness :
    (runTool (Tool.ListFiles (str ".")) wTargetDir).1 = .ok (.Success
      (str ".\n./main.rs\n./target\n")) ∧
    rustLines (str ".\n./main.rs\n./target\n") =
      [str ".", str "./main.rs", str "./target"] ∧
    (str "./target/debug/app" ∈ rustLines (str ".\n./main.rs\n./target\n") ↔
      str "./target/debug/app" ∈
          (wTargetDir.walkdir (str ".")).filterMap Except.toOption ∧
        hasSub (str "target/") (str "./target/debug/app") = false ∧
        hasSub (str ".git/") (str "./target/debug/app") = false) :=
  ⟨listfiles_filter_behavior.1 wTargetDir (str "."),
   listfiles_filter_behavior.2.1 wTargetDir (str ".") (by decide),
   listfiles_filter_behavior.2.2 wTargetDir (str ".")
     (str "./target/debug/app") (by decide)⟩
